import Mathlib

/-!
Verification development for the CSR TBS-template generator
(`src/csr_rustcrypto.rs` of test-rustcrypto-mldsa).

Bytes are modelled as `Nat` (values below 256 in real executions; the
sentinel byte is `0`).  The external collaborators — key generation
(`ml_dsa` randomness), `sha2::Sha256`, the `x509_cert::RequestBuilder`
DER encoder and the envelope stripper `crate::tbs::get_tbs` — are
gathered into a `Backend` record of abstract functions, exactly the data
the Rust code obtains from them.  The `crate::tbs` offset-resolution
primitives (`locate` / `init_param` / `sanitize`) are not part of the
repository sources and are modelled from the spec, as marked on each
definition.
-/

namespace CsrRustcrypto

/-- `crate::tbs::TbsParam`: a named byte range inside the template. -/
structure TbsParam where
  name : String
  offset : Nat
  len : Nat
deriving DecidableEq, Repr, Inhabited

/-- `crate::tbs::TbsTemplate`: the sanitized byte buffer plus the ordered
resolved param list. -/
structure TbsTemplate where
  bytes : List Nat
  params : List TbsParam
deriving DecidableEq, Repr, Inhabited

/-- `x509_cert::ext::pkix::BasicConstraints` (the two fields the builder
sets); the path length constraint is stored as a `u8` value. -/
structure BasicConstraints where
  ca : Bool
  path_len_constraint : Option Nat
deriving DecidableEq, Repr, Inhabited

/-- `CsrTemplateParam` from `csr_rustcrypto.rs`: a pending (unresolved)
param together with the literal needle bytes to search for. -/
structure CsrTemplateParam where
  tbs_param : TbsParam
  needle : List Nat
deriving DecidableEq, Repr, Inhabited

/-- `CsrTemplateBuilder` from `csr_rustcrypto.rs`: the declared optional
extensions plus the accumulated pending params.  `key_usage` is the model
of the `KeyUsage` bit set (a `FlagSet<KeyUsages>` value). -/
structure CsrTemplateBuilder where
  basic_constraints : Option BasicConstraints
  key_usage : Option Nat
  tcg_ueid : Option (List Nat)
  params : List CsrTemplateParam
deriving DecidableEq, Repr, Inhabited

/-- `CsrTemplateBuilder::new` (lines 86–94). -/
def CsrTemplateBuilder.new : CsrTemplateBuilder :=
  { basic_constraints := none, key_usage := none, tcg_ueid := none, params := [] }

/-- `add_basic_constraints_ext` (lines 96–102): stores the constraints;
the Rust `path_len as u8` cast is `path_len % 256`. -/
def CsrTemplateBuilder.add_basic_constraints_ext (b : CsrTemplateBuilder)
    (ca : Bool) (path_len : Nat) : CsrTemplateBuilder :=
  { b with basic_constraints := some { ca := ca, path_len_constraint := some (path_len % 256) } }

/-- `add_key_usage_ext` (lines 104–107): stores the key usage bits. -/
def CsrTemplateBuilder.add_key_usage_ext (b : CsrTemplateBuilder)
    (usage : Nat) : CsrTemplateBuilder :=
  { b with key_usage := some usage }

/-- The pending `UEID` param built by `add_ueid_ext` (lines 111–114):
declared length is the UEID's byte count, needle is the UEID itself. -/
def ueidParam (ueid : List Nat) : CsrTemplateParam :=
  { tbs_param := { name := "UEID", offset := 0, len := ueid.length }, needle := ueid }

/-- `add_ueid_ext` (lines 109–118): stores the UEID extension value and
appends a pending param whose needle is the UEID bytes themselves. -/
def CsrTemplateBuilder.add_ueid_ext (b : CsrTemplateBuilder)
    (ueid : List Nat) : CsrTemplateBuilder :=
  { b with
    tcg_ueid := some ueid
    params := b.params ++ [ueidParam ueid] }

/-- Extension values handed to `x509_cert`'s `RequestBuilder.add_extension`. -/
inductive Ext where
  | basicConstraints (bc : BasicConstraints)
  | tcgUeid (ueid : List Nat)
  | keyUsage (usage : Nat)
deriving DecidableEq, Repr

/-- Everything `tbs_template` passes to the external ASN.1 codec:
the subject `Name` string, the extensions added to the `RequestBuilder`
(in the order of the `add_extension` calls, lines 147–152), and the key. -/
structure EncoderInput where
  subject : String
  extensions : List Ext
  pk : List Nat
deriving DecidableEq, Repr

/-- The extensions that `tbs_template` actually adds to the
`RequestBuilder` (lines 147–152): basic constraints first if declared,
then the TCG UEID if declared.  The stored `key_usage` is never added. -/
def extensionsOf (b : CsrTemplateBuilder) : List Ext :=
  (match b.basic_constraints with
    | some bc => [Ext.basicConstraints bc]
    | none => []) ++
  (match b.tcg_ueid with
    | some u => [Ext.tcgUeid u]
    | none => [])

/-- Model of `hex::encode` (lowercase hex, two digits per byte),
producing the character list of the resulting string. -/
def hexEncode : List Nat → List Char
  | [] => []
  | b :: t => Nat.digitChar (b / 16 % 16) :: Nat.digitChar (b % 16) :: hexEncode t

/-- Model of Rust `str::to_uppercase` on the ASCII strings involved:
uppercases every character. -/
def toUpperStr (s : String) : String :=
  String.mk (s.data.map Char.toUpper)

/-- The UTF-8 bytes of a string (`String::into_bytes`); all strings
involved are ASCII, so the bytes are the code points. -/
def strBytes (s : String) : List Nat :=
  s.data.map Char.toNat

/-- Line 136: `hex::encode(Sha256::digest(&pk_bytes)).to_uppercase()`. -/
def keyHash (sha256 : List Nat → List Nat) (pk : List Nat) : String :=
  toUpperStr (String.mk (hexEncode (sha256 pk)))

/-- The external collaborators of `tbs_template`, abstracted: the encoded
public key bytes produced by key generation + SPKI extraction
(lines 121–128), the SHA-256 digest function, the DER encoder
(`RequestBuilder::build` + `to_der`, lines 145–154) and the envelope
stripper `crate::tbs::get_tbs` (line 201, not part of src). -/
structure Backend where
  pk_bytes : List Nat
  sha256 : List Nat → List Nat
  encode : EncoderInput → List Nat
  getTbs : List Nat → List Nat

/-- The pending `PUBLIC_KEY` param (lines 129–133): declared length is
the encoded public key's byte count, needle is the key bytes. -/
def pkParam (pk : List Nat) : CsrTemplateParam :=
  { tbs_param := { name := "PUBLIC_KEY", offset := 0, len := pk.length }, needle := pk }

/-- The pending `SUBJECT_SN` param (lines 139–143): declared length is
the hex digest string's byte count, needle is that string's bytes. -/
def snParam (kh : String) : CsrTemplateParam :=
  { tbs_param := { name := "SUBJECT_SN", offset := 0, len := (strBytes kh).length },
    needle := strBytes kh }

/-- The pending-param list at the point of resolution (lines 129–143):
the builder's declared params, then `PUBLIC_KEY` (needle = encoded public
key bytes), then `SUBJECT_SN` (needle = the uppercase hex digest string's
bytes, declared length = that string's byte length). -/
def pendingParams (b : CsrTemplateBuilder) (pk : List Nat) (kh : String) :
    List CsrTemplateParam :=
  b.params ++ [pkParam pk] ++ [snParam kh]

/-- Line 137: the subject `Name` string passed to the codec. -/
def subjectName (subject_cn : String) (kh : String) : String :=
  "CN=" ++ subject_cn ++ ",serialNumber=" ++ kh

/-- The full `EncoderInput` that `tbs_template` hands to the codec. -/
def encoderInputOf (b : CsrTemplateBuilder) (pk : List Nat) (subject_cn : String)
    (kh : String) : EncoderInput :=
  { subject := subjectName subject_cn kh, extensions := extensionsOf b, pk := pk }

/-- Modelled from the spec: `crate::tbs::locate` (not in src) returns the
position of the first occurrence of `needle` in the haystack, scanning in
ascending byte order, and fails when the needle is absent
(`NeedleNotFoundError`, modelled as `none`). -/
def locate (needle : List Nat) : List Nat → Option Nat
  | [] => if needle = [] then some 0 else none
  | c :: t =>
    if needle.isPrefixOf (c :: t) then some 0
    else (locate needle t).map (fun k => k + 1)

/-- Modelled from the spec: `crate::tbs::init_param` (not in src)
resolves a pending param's offset to the first occurrence of its needle
in the haystack, failing when the needle is absent. -/
def init_param (needle : List Nat) (haystack : List Nat) (p : TbsParam) :
    Option TbsParam :=
  (locate needle haystack).map (fun off => { p with offset := off })

/-- Overwrite positions `[off, off + n)` of the buffer with the zero
sentinel, leaving everything else unchanged. -/
def zeroRange (off n : Nat) : List Nat → List Nat
  | [] => []
  | c :: t =>
    match off, n with
    | 0, 0 => c :: t
    | 0, m + 1 => 0 :: zeroRange 0 m t
    | o + 1, _ => c :: zeroRange o n t

/-- Modelled from the spec: `crate::tbs::sanitize` (not in src) zeroes
the resolved param's range in the working buffer and hands the param
back. -/
def sanitize (p : TbsParam) (buf : List Nat) : TbsParam × List Nat :=
  (p, zeroRange p.offset p.len buf)

/-- The resolution loop of lines 204–208: for each pending param in
declaration order, resolve it against the current working buffer via
`init_param`, then sanitize its range before the next param is
processed.  Any resolution failure aborts the whole computation. -/
def resolveAll : List CsrTemplateParam → List Nat → Option (List TbsParam × List Nat)
  | [], buf => some ([], buf)
  | p :: ps, buf =>
    match init_param p.needle buf p.tbs_param with
    | none => none
    | some q =>
      let s := sanitize q buf
      match resolveAll ps s.2 with
      | none => none
      | some (qs, bufF) => some (s.1 :: qs, bufF)

/-- The extracted to-be-signed region: the DER output of the codec run
through `get_tbs` (lines 153–201). -/
def tbsBytesOf (E : Backend) (b : CsrTemplateBuilder) (subject_cn : String) : List Nat :=
  E.getTbs (E.encode (encoderInputOf b E.pk_bytes subject_cn (keyHash E.sha256 E.pk_bytes)))

/-- `CsrTemplateBuilder::tbs_template` (lines 120–211): register the
`PUBLIC_KEY` and `SUBJECT_SN` pending params, encode the CSR through the
codec, extract the TBS region, resolve and sanitize every pending param
in declaration order, and return the finished template (or nothing if
any needle could not be located). -/
def tbs_template (E : Backend) (b : CsrTemplateBuilder) (subject_cn : String) :
    Option TbsTemplate :=
  let pk := E.pk_bytes
  let kh := keyHash E.sha256 pk
  let pend := pendingParams b pk kh
  let tbs := tbsBytesOf E b subject_cn
  (resolveAll pend tbs).map (fun pr => { bytes := pr.2, params := pr.1 })

/-- A builder obtained from `new` by at most one call to each of the
three configuration methods (the configuration surface of the builder). -/
def builderOf (ueid : Option (List Nat)) (bc : Option (Bool × Nat))
    (ku : Option Nat) : CsrTemplateBuilder :=
  let b0 := CsrTemplateBuilder.new
  let b1 := match bc with
    | some x => b0.add_basic_constraints_ext x.1 x.2
    | none => b0
  let b2 := match ku with
    | some u => b1.add_key_usage_ext u
    | none => b1
  match ueid with
  | some u => b2.add_ueid_ext u
  | none => b2

end CsrRustcrypto

namespace CsrRustcrypto

/-- The needle occurs in the haystack at position `k`. -/
def matchesAt (needle hay : List Nat) (k : Nat) : Prop :=
  (hay.drop k).take needle.length = needle

instance (needle hay : List Nat) (k : Nat) : Decidable (matchesAt needle hay k) := by
  unfold matchesAt
  infer_instance

theorem locate_bound {needle hay : List Nat} {k : Nat}
    (h : locate needle hay = some k) : k + needle.length ≤ hay.length := by
  induction hay generalizing k with
  | nil =>
    simp only [locate] at h
    split at h
    · rename_i hn
      cases h
      simp [hn]
    · cases h
  | cons c t ih =>
    simp only [locate] at h
    split at h
    · rename_i hp
      cases h
      have := List.IsPrefix.length_le (List.isPrefixOf_iff_prefix.mp hp)
      simpa using this
    · rcases Option.map_eq_some'.mp h with ⟨k', hk', rfl⟩
      have := ih hk'
      simp only [List.length_cons]
      omega

theorem locate_matchesAt {needle hay : List Nat} {k : Nat}
    (h : locate needle hay = some k) : matchesAt needle hay k := by
  induction hay generalizing k with
  | nil =>
    simp only [locate] at h
    split at h
    · rename_i hn
      cases h
      simp [matchesAt, hn]
    · cases h
  | cons c t ih =>
    simp only [locate] at h
    split at h
    · rename_i hp
      cases h
      have := List.prefix_iff_eq_take.mp (List.isPrefixOf_iff_prefix.mp hp)
      simpa [matchesAt] using this.symm
    · rcases Option.map_eq_some'.mp h with ⟨k', hk', rfl⟩
      have := ih hk'
      simpa [matchesAt] using this

theorem locate_least {needle hay : List Nat} {k : Nat}
    (h : locate needle hay = some k) :
    ∀ m, matchesAt needle hay m → k ≤ m := by
  induction hay generalizing k with
  | nil =>
    intro m _
    simp only [locate] at h
    split at h
    · cases h; omega
    · cases h
  | cons c t ih =>
    intro m hm
    simp only [locate] at h
    split at h
    · cases h; omega
    · rename_i hp
      rcases Option.map_eq_some'.mp h with ⟨k', hk', rfl⟩
      cases m with
      | zero =>
        exfalso
        apply hp
        apply List.isPrefixOf_iff_prefix.mpr
        have : needle = List.take needle.length (c :: t) := by
          simpa [matchesAt] using hm.symm
        rw [this]
        exact List.take_prefix _ _
      | succ m' =>
        have hm' : matchesAt needle t m' := by
          simpa [matchesAt] using hm
        have := ih hk' m' hm'
        omega

theorem locate_of_matchesAt {needle hay : List Nat} {m : Nat}
    (h : matchesAt needle hay m) : ∃ k, locate needle hay = some k ∧ k ≤ m := by
  induction hay generalizing m with
  | nil =>
    have hn : needle = [] := by
      simpa [matchesAt] using h.symm
    exact ⟨0, by simp [locate, hn], Nat.zero_le m⟩
  | cons c t ih =>
    by_cases hp : needle.isPrefixOf (c :: t)
    · exact ⟨0, by simp [locate, hp], Nat.zero_le m⟩
    · cases m with
      | zero =>
        exfalso
        apply hp
        apply List.isPrefixOf_iff_prefix.mpr
        have : needle = List.take needle.length (c :: t) := by
          simpa [matchesAt] using h.symm
        rw [this]
        exact List.take_prefix _ _
      | succ m' =>
        have h' : matchesAt needle t m' := by
          simpa [matchesAt] using h
        rcases ih h' with ⟨k, hk, hkm⟩
        refine ⟨k + 1, ?_, by omega⟩
        simp [locate, hp, hk]

theorem matchesAt_getElem? {needle hay : List Nat} {k : Nat}
    (h : matchesAt needle hay k) :
    ∀ j, j < needle.length → hay[k + j]? = needle[j]? := by
  intro j hj
  conv_rhs => rw [← h]
  rw [List.getElem?_take, List.getElem?_drop]
  simp [hj]

theorem locate_getElem? {needle hay : List Nat} {k : Nat}
    (h : locate needle hay = some k) :
    ∀ j, j < needle.length → hay[k + j]? = needle[j]? :=
  matchesAt_getElem? (locate_matchesAt h)

theorem zeroRange_length (off n : Nat) (buf : List Nat) :
    (zeroRange off n buf).length = buf.length := by
  induction buf generalizing off n with
  | nil => simp [zeroRange]
  | cons c t ih =>
    match off, n with
    | 0, 0 => simp [zeroRange]
    | 0, m + 1 => simp [zeroRange, ih]
    | o + 1, n => simp [zeroRange, ih]

theorem zeroRange_getElem? (off n : Nat) (buf : List Nat) (i : Nat) :
    (zeroRange off n buf)[i]? =
      (buf[i]?).map (fun c => if off ≤ i ∧ i < off + n then 0 else c) := by
  induction buf generalizing off n i with
  | nil => simp [zeroRange]
  | cons c t ih =>
    match off, n with
    | 0, 0 =>
      simp only [zeroRange]
      have : ∀ x : Nat, (if 0 ≤ i ∧ i < 0 + 0 then 0 else x) = x := by
        intro x
        simp
      simp [this]
    | 0, m + 1 =>
      cases i with
      | zero => simp [zeroRange]
      | succ j =>
        simp only [zeroRange, List.getElem?_cons_succ, ih]
        have hiff : (0 ≤ j + 1 ∧ j + 1 < 0 + (m + 1)) ↔ (0 ≤ j ∧ j < 0 + m) := by omega
        simp only [hiff]
    | o + 1, n =>
      cases i with
      | zero =>
        simp only [zeroRange, List.getElem?_cons_zero]
        have : ¬ (o + 1 ≤ 0 ∧ (0 : Nat) < o + 1 + n) := by omega
        simp [this]
      | succ j =>
        simp only [zeroRange, List.getElem?_cons_succ, ih]
        have hiff : (o + 1 ≤ j + 1 ∧ j + 1 < o + 1 + n) ↔ (o ≤ j ∧ j < o + n) := by omega
        simp only [hiff]

theorem zeroRange_zero_of_mem {off n i : Nat} {buf : List Nat}
    (h1 : off ≤ i) (h2 : i < off + n) (h3 : i < buf.length) :
    (zeroRange off n buf)[i]? = some 0 := by
  rw [zeroRange_getElem?]
  rw [List.getElem?_eq_getElem h3]
  simp [h1, h2]

theorem zeroRange_preserves_zero {off n i : Nat} {buf : List Nat}
    (h : buf[i]? = some 0) : (zeroRange off n buf)[i]? = some 0 := by
  rw [zeroRange_getElem?, h]
  by_cases hc : off ≤ i ∧ i < off + n <;> simp [hc]

end CsrRustcrypto

namespace CsrRustcrypto

theorem resolveAll_cons_eq (p : CsrTemplateParam) (ps : List CsrTemplateParam)
    (buf : List Nat) :
    resolveAll (p :: ps) buf =
      match init_param p.needle buf p.tbs_param with
      | none => none
      | some q =>
        match resolveAll ps (zeroRange q.offset q.len buf) with
        | none => none
        | some (qs, bufF) => some (q :: qs, bufF) := by
  rfl

theorem init_param_eq_some {needle hay : List Nat} {p q : TbsParam}
    (h : init_param needle hay p = some q) :
    ∃ k, locate needle hay = some k ∧ q = { p with offset := k } := by
  rcases Option.map_eq_some'.mp h with ⟨k, hk, hq⟩
  exact ⟨k, hk, hq.symm⟩

theorem resolveAll_bytes_length {pend : List CsrTemplateParam} {buf : List Nat}
    {qs : List TbsParam} {bufF : List Nat}
    (h : resolveAll pend buf = some (qs, bufF)) : bufF.length = buf.length := by
  induction pend generalizing buf qs bufF with
  | nil =>
    simp only [resolveAll, Option.some.injEq, Prod.mk.injEq] at h
    rw [← h.2]
  | cons p ps ih =>
    rw [resolveAll_cons_eq] at h
    split at h
    · cases h
    · rename_i q hi
      split at h
      · cases h
      · rename_i pr qs' bufF' hr
        simp only [Option.some.injEq, Prod.mk.injEq] at h
        obtain ⟨h1, h2⟩ := h
        subst h2
        rw [ih hr, zeroRange_length]

theorem resolveAll_params_length {pend : List CsrTemplateParam} {buf : List Nat}
    {qs : List TbsParam} {bufF : List Nat}
    (h : resolveAll pend buf = some (qs, bufF)) : qs.length = pend.length := by
  induction pend generalizing buf qs bufF with
  | nil =>
    simp only [resolveAll, Option.some.injEq, Prod.mk.injEq] at h
    rw [← h.1]
    rfl
  | cons p ps ih =>
    rw [resolveAll_cons_eq] at h
    split at h
    · cases h
    · rename_i q hi
      split at h
      · cases h
      · rename_i pr qs' bufF' hr
        simp only [Option.some.injEq, Prod.mk.injEq] at h
        obtain ⟨h1, h2⟩ := h
        subst h1
        simp [ih hr]

theorem resolveAll_zero_preserved {pend : List CsrTemplateParam} {buf : List Nat}
    {qs : List TbsParam} {bufF : List Nat} {i : Nat}
    (h : resolveAll pend buf = some (qs, bufF)) (hz : buf[i]? = some 0) :
    bufF[i]? = some 0 := by
  induction pend generalizing buf qs bufF with
  | nil =>
    simp only [resolveAll, Option.some.injEq, Prod.mk.injEq] at h
    rw [← h.2]
    exact hz
  | cons p ps ih =>
    rw [resolveAll_cons_eq] at h
    split at h
    · cases h
    · rename_i q hi
      split at h
      · cases h
      · rename_i pr qs' bufF' hr
        simp only [Option.some.injEq, Prod.mk.injEq] at h
        obtain ⟨h1, h2⟩ := h
        subst h2
        exact ih hr (zeroRange_preserves_zero hz)

theorem resolveAll_avoid_zero {pend : List CsrTemplateParam} {buf : List Nat}
    {qs : List TbsParam} {bufF : List Nat} {i : Nat}
    (h : resolveAll pend buf = some (qs, bufF))
    (hgood : ∀ cp ∈ pend, cp.tbs_param.len = cp.needle.length ∧ (0 : Nat) ∉ cp.needle)
    (hz : buf[i]? = some 0) :
    ∀ q ∈ qs, ¬ (q.offset ≤ i ∧ i < q.offset + q.len) := by
  induction pend generalizing buf qs bufF with
  | nil =>
    simp only [resolveAll, Option.some.injEq, Prod.mk.injEq] at h
    rw [← h.1]
    simp
  | cons p ps ih =>
    rw [resolveAll_cons_eq] at h
    split at h
    · cases h
    · rename_i q hi
      split at h
      · cases h
      · rename_i pr qs' bufF' hr
        simp only [Option.some.injEq, Prod.mk.injEq] at h
        obtain ⟨h1, h2⟩ := h
        subst h1
        rcases init_param_eq_some hi with ⟨k, hk, rfl⟩
        intro q' hq'
        rcases List.mem_cons.mp hq' with rfl | hmem
        · rintro ⟨hle, hlt⟩
          have hlen : p.tbs_param.len = p.needle.length := (hgood p (by simp)).1
          have hj : i - k < p.needle.length := by
            simp only at hle hlt
            omega
          have := locate_getElem? hk (i - k) hj
          have hik : k + (i - k) = i := by
            simp only at hle
            omega
          rw [hik, hz] at this
          exact (hgood p (by simp)).2 (List.getElem?_mem this.symm)
        · exact ih hr (fun cp hcp => hgood cp (List.mem_cons_of_mem _ hcp))
            (zeroRange_preserves_zero hz) q' hmem

theorem resolveAll_ranges {pend : List CsrTemplateParam} {buf : List Nat}
    {qs : List TbsParam} {bufF : List Nat}
    (h : resolveAll pend buf = some (qs, bufF))
    (hgood : ∀ cp ∈ pend, cp.tbs_param.len = cp.needle.length) :
    ∀ q ∈ qs, q.offset + q.len ≤ buf.length ∧
      ∀ i, q.offset ≤ i → i < q.offset + q.len → bufF[i]? = some 0 := by
  induction pend generalizing buf qs bufF with
  | nil =>
    simp only [resolveAll, Option.some.injEq, Prod.mk.injEq] at h
    rw [← h.1]
    simp
  | cons p ps ih =>
    rw [resolveAll_cons_eq] at h
    split at h
    · cases h
    · rename_i q hi
      split at h
      · cases h
      · rename_i pr qs' bufF' hr
        simp only [Option.some.injEq, Prod.mk.injEq] at h
        obtain ⟨h1, h2⟩ := h
        subst h1
        subst h2
        rcases init_param_eq_some hi with ⟨k, hk, rfl⟩
        have hlen : p.tbs_param.len = p.needle.length := hgood p (by simp)
        have hbound : k + p.needle.length ≤ buf.length := locate_bound hk
        intro q' hq'
        rcases List.mem_cons.mp hq' with rfl | hmem
        · constructor
          · simp only
            omega
          · intro i hle hlt
            simp only at hle hlt
            have hib : i < buf.length := by omega
            have : (zeroRange k p.tbs_param.len buf)[i]? = some 0 :=
              zeroRange_zero_of_mem hle hlt hib
            exact resolveAll_zero_preserved hr this
        · have := ih hr (fun cp hcp => hgood cp (List.mem_cons_of_mem _ hcp)) q' hmem
          refine ⟨?_, this.2⟩
          have := this.1
          rwa [zeroRange_length] at this

theorem resolveAll_len_pos {pend : List CsrTemplateParam} {buf : List Nat}
    {qs : List TbsParam} {bufF : List Nat}
    (h : resolveAll pend buf = some (qs, bufF))
    (hgood : ∀ cp ∈ pend, cp.tbs_param.len = cp.needle.length ∧ cp.needle ≠ []) :
    ∀ q ∈ qs, 0 < q.len := by
  induction pend generalizing buf qs bufF with
  | nil =>
    simp only [resolveAll, Option.some.injEq, Prod.mk.injEq] at h
    rw [← h.1]
    simp
  | cons p ps ih =>
    rw [resolveAll_cons_eq] at h
    split at h
    · cases h
    · rename_i q hi
      split at h
      · cases h
      · rename_i pr qs' bufF' hr
        simp only [Option.some.injEq, Prod.mk.injEq] at h
        obtain ⟨h1, h2⟩ := h
        subst h1
        rcases init_param_eq_some hi with ⟨k, hk, rfl⟩
        intro q' hq'
        rcases List.mem_cons.mp hq' with rfl | hmem
        · have h1 := (hgood p (by simp)).1
          have h2 := (hgood p (by simp)).2
          simp only
          rw [h1]
          exact List.length_pos.mpr h2
        · exact ih hr (fun cp hcp => hgood cp (List.mem_cons_of_mem _ hcp)) q' hmem

theorem resolveAll_pairwise {pend : List CsrTemplateParam} {buf : List Nat}
    {qs : List TbsParam} {bufF : List Nat}
    (h : resolveAll pend buf = some (qs, bufF))
    (hgood : ∀ cp ∈ pend, cp.tbs_param.len = cp.needle.length ∧ (0 : Nat) ∉ cp.needle) :
    List.Pairwise
      (fun p q => ∀ i, p.offset ≤ i ∧ i < p.offset + p.len →
        ¬ (q.offset ≤ i ∧ i < q.offset + q.len)) qs := by
  induction pend generalizing buf qs bufF with
  | nil =>
    simp only [resolveAll, Option.some.injEq, Prod.mk.injEq] at h
    rw [← h.1]
    simp
  | cons p ps ih =>
    rw [resolveAll_cons_eq] at h
    split at h
    · cases h
    · rename_i q hi
      split at h
      · cases h
      · rename_i pr qs' bufF' hr
        simp only [Option.some.injEq, Prod.mk.injEq] at h
        obtain ⟨h1, h2⟩ := h
        subst h1
        rcases init_param_eq_some hi with ⟨k, hk, rfl⟩
        have hlen : p.tbs_param.len = p.needle.length := (hgood p (by simp)).1
        have hbound : k + p.needle.length ≤ buf.length := locate_bound hk
        constructor
        · intro q' hq' i hi'
          obtain ⟨hle, hlt⟩ := hi'
          simp only at hle hlt
          have hib : i < buf.length := by omega
          have hz : (zeroRange k p.tbs_param.len buf)[i]? = some 0 :=
            zeroRange_zero_of_mem hle hlt hib
          exact resolveAll_avoid_zero hr
            (fun cp hcp => hgood cp (List.mem_cons_of_mem _ hcp)) hz q' hq'
        · exact ih hr (fun cp hcp => hgood cp (List.mem_cons_of_mem _ hcp))

end CsrRustcrypto

namespace CsrRustcrypto

theorem resolveAll_append (l1 l2 : List CsrTemplateParam) (buf : List Nat) :
    resolveAll (l1 ++ l2) buf =
      match resolveAll l1 buf with
      | none => none
      | some (qs1, buf1) =>
        match resolveAll l2 buf1 with
        | none => none
        | some (qs2, buf2) => some (qs1 ++ qs2, buf2) := by
  induction l1 generalizing buf with
  | nil =>
    simp only [List.nil_append, resolveAll]
    cases hr : resolveAll l2 buf with
    | none => rfl
    | some pr =>
      obtain ⟨qs2, buf2⟩ := pr
      simp
  | cons p ps ih =>
    simp only [List.cons_append]
    rw [resolveAll_cons_eq, resolveAll_cons_eq]
    cases hi : init_param p.needle buf p.tbs_param with
    | none => rfl
    | some q =>
      simp only
      rw [ih]
      cases hr : resolveAll ps (zeroRange q.offset q.len buf) with
      | none => rfl
      | some pr =>
        obtain ⟨qs1, buf1⟩ := pr
        simp only
        cases hr2 : resolveAll l2 buf1 with
        | none => rfl
        | some pr2 =>
          obtain ⟨qs2, buf2⟩ := pr2
          simp

/-- Apply `zeroRange` for each (offset, length) pair in turn. -/
def multiZero (buf : List Nat) (prs : List (Nat × Nat)) : List Nat :=
  prs.foldl (fun b pr => zeroRange pr.1 pr.2 b) buf

theorem resolveAll_step {pend : List CsrTemplateParam} {buf : List Nat}
    {qs : List TbsParam} {bufF : List Nat}
    (h : resolveAll pend buf = some (qs, bufF)) :
    ∀ k, k < pend.length →
      init_param (pend.getD k default).needle
        (multiZero buf ((qs.take k).map (fun q => (q.offset, q.len))))
        (pend.getD k default).tbs_param = some (qs.getD k default) := by
  induction pend generalizing buf qs bufF with
  | nil =>
    intro k hk
    simp at hk
  | cons p ps ih =>
    rw [resolveAll_cons_eq] at h
    split at h
    · cases h
    · rename_i q hi
      split at h
      · cases h
      · rename_i pr qs' bufF' hr
        simp only [Option.some.injEq, Prod.mk.injEq] at h
        obtain ⟨h1, h2⟩ := h
        subst h1
        subst h2
        intro k hk
        cases k with
        | zero =>
          simpa [multiZero] using hi
        | succ k' =>
          have hk' : k' < ps.length := by simpa using hk
          have := ih hr k' hk'
          simpa [multiZero, List.take_succ_cons, List.getD_cons_succ] using this

theorem resolveAll_of_located :
    ∀ (pend : List CsrTemplateParam) (buf : List Nat) (os : List Nat),
    os.length = pend.length →
    (∀ k, k < pend.length →
      locate (pend.getD k default).needle
        (multiZero buf ((os.take k).zip ((pend.map (fun cp => cp.tbs_param.len)).take k)))
        = some (os.getD k 0)) →
    resolveAll pend buf =
      some (List.zipWith (fun cp o => { cp.tbs_param with offset := o }) pend os,
            multiZero buf (os.zip (pend.map (fun cp => cp.tbs_param.len)))) := by
  intro pend
  induction pend with
  | nil =>
    intro buf os hlen hloc
    have : os = [] := List.length_eq_zero.mp (by simpa using hlen)
    subst this
    simp [resolveAll, multiZero]
  | cons p ps ih =>
    intro buf os hlen hloc
    cases os with
    | nil => simp at hlen
    | cons o os' =>
      have h0 := hloc 0 (by simp)
      simp only [List.getD_cons_zero, List.take_zero, List.zip_nil_left] at h0
      have h0' : locate p.needle buf = some o := by
        simpa [multiZero] using h0
      have hip : init_param p.needle buf p.tbs_param =
          some { p.tbs_param with offset := o } := by
        simp [init_param, h0']
      have hloc' : ∀ k, k < ps.length →
          locate (ps.getD k default).needle
            (multiZero (zeroRange o p.tbs_param.len buf)
              ((os'.take k).zip ((ps.map (fun cp => cp.tbs_param.len)).take k)))
          = some (os'.getD k 0) := by
        intro k hk
        have := hloc (k + 1) (by simpa using Nat.succ_lt_succ hk)
        simpa [multiZero, List.take_succ_cons, List.getD_cons_succ] using this
      have hrec := ih (zeroRange o p.tbs_param.len buf) os' (by simpa using hlen) hloc'
      rw [resolveAll_cons_eq, hip]
      simp only
      rw [hrec]
      simp [multiZero]

theorem hexEncode_length (l : List Nat) : (hexEncode l).length = 2 * l.length := by
  induction l with
  | nil => simp [hexEncode]
  | cons b t ih =>
    simp only [hexEncode, List.length_cons, ih]
    omega

/-- The spec's description of the serial-number string: the uppercase hex
digit bytes of the digest, two per digest byte
(`0`–`9` are 48–57, `A`–`F` are 65–70). -/
def upHexDigit (n : Nat) : Nat := if n < 10 then 48 + n else 55 + n

/-- The spec's uppercase hex encoding of a byte list, as bytes. -/
def upperHexBytes : List Nat → List Nat
  | [] => []
  | b :: t => upHexDigit (b / 16 % 16) :: upHexDigit (b % 16) :: upperHexBytes t

theorem upHexDigit_pos (n : Nat) : 48 ≤ upHexDigit n := by
  unfold upHexDigit
  split <;> omega

theorem upperHexBytes_length (l : List Nat) : (upperHexBytes l).length = 2 * l.length := by
  induction l with
  | nil => simp [upperHexBytes]
  | cons b t ih =>
    simp only [upperHexBytes, List.length_cons, ih]
    omega

theorem upperHexBytes_not_zero (l : List Nat) : (0 : Nat) ∉ upperHexBytes l := by
  induction l with
  | nil => simp [upperHexBytes]
  | cons b t ih =>
    simp only [upperHexBytes, List.mem_cons]
    push_neg
    refine ⟨?_, ?_, ih⟩
    · have := upHexDigit_pos (b / 16 % 16)
      omega
    · have := upHexDigit_pos (b % 16)
      omega

theorem digitChar_toUpper_toNat : ∀ n, n < 16 → (Nat.digitChar n).toUpper.toNat = upHexDigit n := by
  decide

theorem strBytes_keyHash (sha : List Nat → List Nat) (pk : List Nat) :
    strBytes (keyHash sha pk) = upperHexBytes (sha pk) := by
  show ((hexEncode (sha pk)).map Char.toUpper).map Char.toNat = upperHexBytes (sha pk)
  rw [List.map_map]
  generalize sha pk = d
  induction d with
  | nil => simp [hexEncode, upperHexBytes]
  | cons b t ih =>
    simp only [hexEncode, upperHexBytes, List.map_cons, Function.comp_apply, ih]
    rw [digitChar_toUpper_toNat _ (Nat.mod_lt _ (by omega)),
        digitChar_toUpper_toNat _ (Nat.mod_lt _ (by omega))]

theorem strBytes_keyHash_length (sha : List Nat → List Nat) (pk : List Nat) :
    (strBytes (keyHash sha pk)).length = 2 * (sha pk).length := by
  rw [strBytes_keyHash, upperHexBytes_length]

end CsrRustcrypto

namespace CsrRustcrypto

/-- The pending-param list `tbs_template` resolves for a given backend and
builder. -/
def pendingOf (E : Backend) (b : CsrTemplateBuilder) : List CsrTemplateParam :=
  pendingParams b E.pk_bytes (keyHash E.sha256 E.pk_bytes)

theorem tbs_template_def (E : Backend) (b : CsrTemplateBuilder) (cn : String) :
    tbs_template E b cn =
      (resolveAll (pendingOf E b) (tbsBytesOf E b cn)).map
        (fun pr => { bytes := pr.2, params := pr.1 }) := rfl

theorem tbs_template_some {E : Backend} {b : CsrTemplateBuilder} {cn : String}
    {T : TbsTemplate} (h : tbs_template E b cn = some T) :
    resolveAll (pendingOf E b) (tbsBytesOf E b cn) = some (T.params, T.bytes) := by
  rw [tbs_template_def] at h
  rcases Option.map_eq_some'.mp h with ⟨pr, hpr, hT⟩
  obtain ⟨qs, bufF⟩ := pr
  rw [← hT]
  exact hpr

theorem resolveAll_names {pend : List CsrTemplateParam} {buf : List Nat}
    {qs : List TbsParam} {bufF : List Nat}
    (h : resolveAll pend buf = some (qs, bufF)) :
    qs.map (fun q => q.name) = pend.map (fun cp => cp.tbs_param.name) ∧
    qs.map (fun q => q.len) = pend.map (fun cp => cp.tbs_param.len) := by
  induction pend generalizing buf qs bufF with
  | nil =>
    simp only [resolveAll, Option.some.injEq, Prod.mk.injEq] at h
    rw [← h.1]
    simp
  | cons p ps ih =>
    rw [resolveAll_cons_eq] at h
    split at h
    · cases h
    · rename_i q hi
      split at h
      · cases h
      · rename_i pr qs' bufF' hr
        simp only [Option.some.injEq, Prod.mk.injEq] at h
        obtain ⟨h1, h2⟩ := h
        subst h1
        rcases init_param_eq_some hi with ⟨k, hk, rfl⟩
        have := ih hr
        simp [this.1, this.2]

theorem multiZero_length (prs : List (Nat × Nat)) (buf : List Nat) :
    (multiZero buf prs).length = buf.length := by
  induction prs generalizing buf with
  | nil => rfl
  | cons pr rest ih =>
    simp only [multiZero, List.foldl_cons] at ih ⊢
    rw [ih, zeroRange_length]

theorem pendingOf_length (E : Backend) (b : CsrTemplateBuilder) :
    (pendingOf E b).length = b.params.length + 2 := by
  simp [pendingOf, pendingParams]

/-- Every builder reachable through the configuration API declares params
whose length field equals their needle's length. -/
def WellFormed (b : CsrTemplateBuilder) : Prop :=
  ∀ cp ∈ b.params, cp.tbs_param.len = cp.needle.length

instance (b : CsrTemplateBuilder) : Decidable (WellFormed b) := by
  unfold WellFormed
  infer_instance

theorem wellFormed_new : WellFormed CsrTemplateBuilder.new := by
  intro cp hcp
  simp [CsrTemplateBuilder.new] at hcp

theorem wellFormed_add_basic_constraints {b : CsrTemplateBuilder} (h : WellFormed b)
    (ca : Bool) (n : Nat) : WellFormed (b.add_basic_constraints_ext ca n) := h

theorem wellFormed_add_key_usage {b : CsrTemplateBuilder} (h : WellFormed b)
    (u : Nat) : WellFormed (b.add_key_usage_ext u) := h

theorem wellFormed_add_ueid {b : CsrTemplateBuilder} (h : WellFormed b)
    (ueid : List Nat) : WellFormed (b.add_ueid_ext ueid) := by
  intro cp hcp
  simp only [CsrTemplateBuilder.add_ueid_ext, List.mem_append, List.mem_singleton] at hcp
  rcases hcp with hcp | rfl
  · exact h cp hcp
  · rfl

theorem pendingOf_good {E : Backend} {b : CsrTemplateBuilder} (hb : WellFormed b) :
    ∀ cp ∈ pendingOf E b, cp.tbs_param.len = cp.needle.length := by
  intro cp hcp
  simp only [pendingOf, pendingParams, List.append_assoc, List.mem_append,
    List.mem_singleton] at hcp
  rcases hcp with hcp | rfl | rfl
  · exact hb cp hcp
  · rfl
  · rfl

/-- C10: for every `add_basic_constraints_ext(ca, path_len)` call with
`path_len` a 32-bit value, the stored path length constraint is
`path_len % 256` (the Rust `as u8` cast), so any `path_len ≥ 256` is
silently truncated rather than rejected. -/
theorem C10_path_len_truncated (b : CsrTemplateBuilder) (ca : Bool) (path_len : Nat)
    (h32 : path_len < 2 ^ 32) :
    (b.add_basic_constraints_ext ca path_len).basic_constraints =
      some { ca := ca, path_len_constraint := some (path_len % 256) } ∧
    (256 ≤ path_len → path_len % 256 ≠ path_len) := by
  refine ⟨rfl, ?_⟩
  intro h256
  have := Nat.mod_lt path_len (show 0 < 256 by omega)
  omega

theorem C10_witness :
    300 < 2 ^ 32 ∧
    ((CsrTemplateBuilder.new.add_basic_constraints_ext true 300).basic_constraints =
      some { ca := true, path_len_constraint := some (300 % 256) } ∧
      (256 ≤ 300 → 300 % 256 ≠ 300)) :=
  ⟨by norm_num, C10_path_len_truncated CsrTemplateBuilder.new true 300 (by norm_num)⟩

/-- C1 (code defect): a key usage declared via `add_key_usage_ext` is
never passed to the ASN.1 codec: the extension list handed to the
`RequestBuilder` is unchanged by `add_key_usage_ext`, no key-usage
extension ever occurs in it, and the whole `tbs_template` output is
independent of the declared key usage — contradicting the claim that all
declared extensions appear in the encoded output. -/
theorem C1_key_usage_never_passed (b : CsrTemplateBuilder) (u : Nat) :
    extensionsOf (b.add_key_usage_ext u) = extensionsOf b ∧
    (∀ v, Ext.keyUsage v ∉ extensionsOf b) ∧
    (∀ E cn, tbs_template E (b.add_key_usage_ext u) cn = tbs_template E b cn) := by
  refine ⟨rfl, ?_, fun E cn => rfl⟩
  intro v
  unfold extensionsOf
  cases b.basic_constraints <;> cases b.tcg_ueid <;> simp

/-- C8 counterexample backend: a tiny haystack in which every needle of
the duplicate-UEID builder occurs. -/
def c8Backend : Backend :=
  { pk_bytes := [3]
    sha256 := fun _ => [6]
    encode := fun _ => []
    getTbs := fun _ => [1, 2, 3, 48, 54] }

/-- C8 counterexample: declaring the UEID twice is not rejected — there
is no `ConfigurationError` path.  The second `add_ueid_ext` call is
accepted, overwrites the stored extension value, appends a second UEID
param declaration, and `tbs_template` still returns a template. -/
theorem C8_counterexample :
    ((CsrTemplateBuilder.new.add_ueid_ext [1]).add_ueid_ext [2]).tcg_ueid = some [2] ∧
    ((CsrTemplateBuilder.new.add_ueid_ext [1]).add_ueid_ext [2]).params.map
      (fun cp => cp.tbs_param.name) = ["UEID", "UEID"] ∧
    tbs_template c8Backend ((CsrTemplateBuilder.new.add_ueid_ext [1]).add_ueid_ext [2]) "X" =
      some { bytes := [0, 0, 0, 0, 0],
             params := [{ name := "UEID", offset := 0, len := 1 },
                        { name := "UEID", offset := 1, len := 1 },
                        { name := "PUBLIC_KEY", offset := 2, len := 1 },
                        { name := "SUBJECT_SN", offset := 3, len := 2 }] } := by
  refine ⟨rfl, rfl, ?_⟩
  decide

/-- C8 amended: declaring the UEID twice on a builder is silently
accepted: the second call overwrites the stored UEID extension value and
appends a second `UEID` pending param; no error is reported. -/
theorem C8_amended_duplicate_accepted (b : CsrTemplateBuilder) (u1 u2 : List Nat) :
    ((b.add_ueid_ext u1).add_ueid_ext u2).tcg_ueid = some u2 ∧
    ((b.add_ueid_ext u1).add_ueid_ext u2).params =
      b.params ++ [ueidParam u1] ++ [ueidParam u2] := by
  refine ⟨rfl, ?_⟩
  simp [CsrTemplateBuilder.add_ueid_ext]

/-- C7: whenever a needle occurs at two distinct positions of a haystack,
`locate` (and hence `init_param`, which resolves a param through it)
returns the lowest offset of any occurrence. -/
theorem C7_locate_first_occurrence (needle hay : List Nat) (i j : Nat)
    (hij : i < j) (hi : matchesAt needle hay i) (hj : matchesAt needle hay j) :
    ∃ k, locate needle hay = some k ∧ k ≤ i ∧ matchesAt needle hay k ∧
      (∀ m, matchesAt needle hay m → k ≤ m) ∧
      ∀ p : TbsParam, init_param needle hay p = some { p with offset := k } := by
  rcases locate_of_matchesAt hi with ⟨k, hk, hki⟩
  exact ⟨k, hk, hki, locate_matchesAt hk, locate_least hk,
    fun p => by simp [init_param, hk]⟩

theorem C7_witness :
    (0 : Nat) < 1 ∧ matchesAt [5] [5, 5] 0 ∧ matchesAt [5] [5, 5] 1 ∧
    (∃ k, locate [5] [5, 5] = some k ∧ k ≤ 0 ∧ matchesAt [5] [5, 5] k ∧
      (∀ m, matchesAt [5] [5, 5] m → k ≤ m) ∧
      ∀ p : TbsParam, init_param [5] [5, 5] p = some { p with offset := k }) :=
  ⟨by decide, by decide, by decide,
    C7_locate_first_occurrence [5] [5, 5] 0 1 (by decide) (by decide) (by decide)⟩

end CsrRustcrypto

namespace CsrRustcrypto

/-- C3: for every `tbs_template` call with subject common name `cn`, the
subject handed to the codec is `CN=cn,serialNumber=H` where `H` is the
uppercase hex encoding of the SHA-256 digest of the encoded public key;
the encoded public key bytes and the bytes of `H` are both registered as
pending dynamic-field declarations whose needle is the literal value
itself; and the `SUBJECT_SN` param has length 64. -/
theorem C3_subject_and_params (E : Backend) (b : CsrTemplateBuilder) (cn : String)
    (h32 : (E.sha256 E.pk_bytes).length = 32) :
    (encoderInputOf b E.pk_bytes cn (keyHash E.sha256 E.pk_bytes)).subject =
      "CN=" ++ cn ++ ",serialNumber=" ++ keyHash E.sha256 E.pk_bytes ∧
    strBytes (keyHash E.sha256 E.pk_bytes) = upperHexBytes (E.sha256 E.pk_bytes) ∧
    pkParam E.pk_bytes ∈ pendingOf E b ∧
    (pkParam E.pk_bytes).needle = E.pk_bytes ∧
    (pkParam E.pk_bytes).tbs_param.len = E.pk_bytes.length ∧
    snParam (keyHash E.sha256 E.pk_bytes) ∈ pendingOf E b ∧
    (snParam (keyHash E.sha256 E.pk_bytes)).needle =
      strBytes (keyHash E.sha256 E.pk_bytes) ∧
    (snParam (keyHash E.sha256 E.pk_bytes)).tbs_param.len = 64 := by
  refine ⟨rfl, strBytes_keyHash _ _, ?_, rfl, rfl, ?_, rfl, ?_⟩
  · simp [pendingOf, pendingParams]
  · simp [pendingOf, pendingParams]
  · show (strBytes (keyHash E.sha256 E.pk_bytes)).length = 64
    rw [strBytes_keyHash_length, h32]

/-- C3 witness backend: a digest function of the right output size. -/
def c3Backend : Backend :=
  { pk_bytes := [1]
    sha256 := fun _ => List.replicate 32 0
    encode := fun _ => []
    getTbs := fun _ => [] }

theorem C3_witness :
    (c3Backend.sha256 c3Backend.pk_bytes).length = 32 ∧
    ((encoderInputOf CsrTemplateBuilder.new c3Backend.pk_bytes "X"
        (keyHash c3Backend.sha256 c3Backend.pk_bytes)).subject =
      "CN=" ++ "X" ++ ",serialNumber=" ++ keyHash c3Backend.sha256 c3Backend.pk_bytes ∧
    strBytes (keyHash c3Backend.sha256 c3Backend.pk_bytes) =
      upperHexBytes (c3Backend.sha256 c3Backend.pk_bytes) ∧
    pkParam c3Backend.pk_bytes ∈ pendingOf c3Backend CsrTemplateBuilder.new ∧
    (pkParam c3Backend.pk_bytes).needle = c3Backend.pk_bytes ∧
    (pkParam c3Backend.pk_bytes).tbs_param.len = c3Backend.pk_bytes.length ∧
    snParam (keyHash c3Backend.sha256 c3Backend.pk_bytes) ∈
      pendingOf c3Backend CsrTemplateBuilder.new ∧
    (snParam (keyHash c3Backend.sha256 c3Backend.pk_bytes)).needle =
      strBytes (keyHash c3Backend.sha256 c3Backend.pk_bytes) ∧
    (snParam (keyHash c3Backend.sha256 c3Backend.pk_bytes)).tbs_param.len = 64) :=
  ⟨by decide, C3_subject_and_params c3Backend CsrTemplateBuilder.new "X" (by decide)⟩

/-- C4: in every returned template, every finalized param's byte range is
inside the buffer and entirely filled with the zero sentinel. -/
theorem C4_ranges_zeroed (E : Backend) (b : CsrTemplateBuilder) (cn : String)
    (T : TbsTemplate) (hb : WellFormed b) (h : tbs_template E b cn = some T) :
    ∀ p ∈ T.params, p.offset + p.len ≤ T.bytes.length ∧
      ∀ i, p.offset ≤ i → i < p.offset + p.len → T.bytes[i]? = some 0 := by
  have hr := tbs_template_some h
  have hall := resolveAll_ranges hr (pendingOf_good hb)
  intro p hp
  refine ⟨?_, (hall p hp).2⟩
  have h1 := (hall p hp).1
  have h2 := resolveAll_bytes_length hr
  omega

/-- C4 witness backend. -/
def c4Backend : Backend :=
  { pk_bytes := [2]
    sha256 := fun _ => [4]
    encode := fun _ => []
    getTbs := fun _ => [1, 2, 48, 52] }

/-- The template produced in the C4 witness run. -/
def c4Template : TbsTemplate :=
  { bytes := [0, 0, 0, 0]
    params := [{ name := "UEID", offset := 0, len := 1 },
               { name := "PUBLIC_KEY", offset := 1, len := 1 },
               { name := "SUBJECT_SN", offset := 2, len := 2 }] }

theorem C4_witness :
    WellFormed (CsrTemplateBuilder.new.add_ueid_ext [1]) ∧
    tbs_template c4Backend (CsrTemplateBuilder.new.add_ueid_ext [1]) "X" =
      some c4Template ∧
    ∀ p ∈ c4Template.params, p.offset + p.len ≤ c4Template.bytes.length ∧
      ∀ i, p.offset ≤ i → i < p.offset + p.len → c4Template.bytes[i]? = some 0 :=
  ⟨by decide, by decide,
    C4_ranges_zeroed c4Backend (CsrTemplateBuilder.new.add_ueid_ext [1]) "X"
      c4Template (by decide) (by decide)⟩

end CsrRustcrypto

namespace CsrRustcrypto

/-- C6: if, when resolution reaches a declared dynamic field, its needle
bytes are absent from the current working copy of the extracted
to-be-signed region, `locate` fails and the whole `tbs_template` call
returns nothing — no partial template is ever produced. -/
theorem C6_needle_absent_aborts (E : Backend) (b : CsrTemplateBuilder) (cn : String)
    (ps1 : List CsrTemplateParam) (cp : CsrTemplateParam) (ps2 : List CsrTemplateParam)
    (qs1 : List TbsParam) (buf1 : List Nat)
    (hsplit : pendingOf E b = ps1 ++ cp :: ps2)
    (hpre : resolveAll ps1 (tbsBytesOf E b cn) = some (qs1, buf1))
    (habsent : locate cp.needle buf1 = none) :
    tbs_template E b cn = none := by
  have habort : resolveAll (ps1 ++ cp :: ps2) (tbsBytesOf E b cn) = none := by
    rw [resolveAll_append, hpre]
    simp only
    rw [resolveAll_cons_eq]
    simp [init_param, habsent]
  rw [tbs_template_def, hsplit, habort]
  rfl

/-- C6 witness backend: the extracted region contains the UEID needle but
not the public key needle. -/
def c6Backend : Backend :=
  { pk_bytes := [2]
    sha256 := fun _ => [3]
    encode := fun _ => []
    getTbs := fun _ => [1, 9, 9] }

theorem C6_witness :
    pendingOf c6Backend (CsrTemplateBuilder.new.add_ueid_ext [1]) =
      [ueidParam [1]] ++ pkParam [2] :: [snParam (keyHash c6Backend.sha256 [2])] ∧
    resolveAll [ueidParam [1]]
      (tbsBytesOf c6Backend (CsrTemplateBuilder.new.add_ueid_ext [1]) "X") =
      some ([{ name := "UEID", offset := 0, len := 1 }], [0, 9, 9]) ∧
    locate (pkParam [2]).needle [0, 9, 9] = none ∧
    tbs_template c6Backend (CsrTemplateBuilder.new.add_ueid_ext [1]) "X" = none :=
  ⟨by decide, by decide, by decide,
    C6_needle_absent_aborts c6Backend (CsrTemplateBuilder.new.add_ueid_ext [1]) "X"
      [ueidParam [1]] (pkParam [2]) [snParam (keyHash c6Backend.sha256 [2])]
      [{ name := "UEID", offset := 0, len := 1 }] [0, 9, 9]
      (by decide) (by decide) (by decide)⟩

end CsrRustcrypto

namespace CsrRustcrypto

theorem builderOf_params (ueid : Option (List Nat)) (bc : Option (Bool × Nat))
    (ku : Option Nat) :
    (builderOf ueid bc ku).params =
      match ueid with
      | some u => [ueidParam u]
      | none => [] := by
  cases ueid <;> cases bc <;> cases ku <;> rfl

/-- C2: during `tbs_template` every pending param is resolved exactly
once, strictly in declaration order — `UEID` (if declared), then
`PUBLIC_KEY`, then `SUBJECT_SN` — and each param is resolved by
`init_param` against the working copy of the to-be-signed bytes in which
the ranges of all previously resolved params have already been sanitized
(zeroed). -/
theorem C2_resolution_order (E : Backend) (ueid : Option (List Nat))
    (bc : Option (Bool × Nat)) (ku : Option Nat) (cn : String) (T : TbsTemplate)
    (h : tbs_template E (builderOf ueid bc ku) cn = some T) :
    T.params.map (fun q => q.name) =
      (match ueid with | some _ => ["UEID"] | none => []) ++
        ["PUBLIC_KEY", "SUBJECT_SN"] ∧
    T.params.length = (pendingOf E (builderOf ueid bc ku)).length ∧
    ∀ k, k < (pendingOf E (builderOf ueid bc ku)).length →
      init_param ((pendingOf E (builderOf ueid bc ku)).getD k default).needle
        (multiZero (tbsBytesOf E (builderOf ueid bc ku) cn)
          ((T.params.take k).map (fun q => (q.offset, q.len))))
        ((pendingOf E (builderOf ueid bc ku)).getD k default).tbs_param
        = some (T.params.getD k default) := by
  have hr := tbs_template_some h
  refine ⟨?_, resolveAll_params_length hr, resolveAll_step hr⟩
  have hnames := (resolveAll_names hr).1
  rw [hnames]
  simp only [pendingOf, pendingParams, builderOf_params, List.map_append]
  cases ueid <;> simp [ueidParam, pkParam, snParam]

/-- C2 witness backend. -/
def c2Backend : Backend :=
  { pk_bytes := [2]
    sha256 := fun _ => [4]
    encode := fun _ => []
    getTbs := fun _ => [1, 2, 48, 52] }

/-- The template produced in the C2 witness run. -/
def c2Template : TbsTemplate :=
  { bytes := [0, 0, 0, 0]
    params := [{ name := "UEID", offset := 0, len := 1 },
               { name := "PUBLIC_KEY", offset := 1, len := 1 },
               { name := "SUBJECT_SN", offset := 2, len := 2 }] }

theorem C2_witness :
    tbs_template c2Backend (builderOf (some [1]) (some (true, 5)) (some 4)) "X" =
      some c2Template ∧
    (c2Template.params.map (fun q => q.name) =
      (match some [1] with | some _ => ["UEID"] | none => []) ++
        ["PUBLIC_KEY", "SUBJECT_SN"] ∧
    c2Template.params.length =
      (pendingOf c2Backend (builderOf (some [1]) (some (true, 5)) (some 4))).length ∧
    ∀ k, k < (pendingOf c2Backend (builderOf (some [1]) (some (true, 5)) (some 4))).length →
      init_param
        ((pendingOf c2Backend (builderOf (some [1]) (some (true, 5)) (some 4))).getD
          k default).needle
        (multiZero (tbsBytesOf c2Backend (builderOf (some [1]) (some (true, 5)) (some 4)) "X")
          ((c2Template.params.take k).map (fun q => (q.offset, q.len))))
        ((pendingOf c2Backend (builderOf (some [1]) (some (true, 5)) (some 4))).getD
          k default).tbs_param
        = some (c2Template.params.getD k default)) :=
  ⟨by decide,
    C2_resolution_order c2Backend (some [1]) (some (true, 5)) (some 4) "X" c2Template
      (by decide)⟩

end CsrRustcrypto

namespace CsrRustcrypto

/-- Two params' byte ranges share no index. -/
def rangesDisjoint (p q : TbsParam) : Prop :=
  ∀ i, (p.offset ≤ i ∧ i < p.offset + p.len) → ¬ (q.offset ≤ i ∧ i < q.offset + q.len)

/-- C5 exactly as claimed: every param of every returned template has
positive length, lies inside the buffer, and the ranges are pairwise
disjoint. -/
def c5ClaimStatement : Prop :=
  ∀ (E : Backend) (b : CsrTemplateBuilder) (cn : String) (T : TbsTemplate),
    tbs_template E b cn = some T →
    (∀ p ∈ T.params, 0 < p.len ∧ p.offset + p.len ≤ T.bytes.length) ∧
    List.Pairwise rangesDisjoint T.params

/-- C5 counterexample backend for the positive-length part. -/
def c5aBackend : Backend :=
  { pk_bytes := [1]
    sha256 := fun _ => [0]
    encode := fun _ => []
    getTbs := fun _ => [1, 48, 48] }

/-- Template returned for an empty declared UEID: its `UEID` param has
length `0`. -/
def c5aTemplate : TbsTemplate :=
  { bytes := [0, 0, 0]
    params := [{ name := "UEID", offset := 0, len := 0 },
               { name := "PUBLIC_KEY", offset := 0, len := 1 },
               { name := "SUBJECT_SN", offset := 1, len := 2 }] }

/-- C5 counterexample backend for the disjointness part. -/
def c5bBackend : Backend :=
  { pk_bytes := [0]
    sha256 := fun _ => [0]
    encode := fun _ => []
    getTbs := fun _ => [0, 0, 48, 48] }

/-- Template returned for a UEID of two zero bytes and a zero public key
byte: the `PUBLIC_KEY` range `[0,1)` lies inside the `UEID` range
`[0,2)`. -/
def c5bTemplate : TbsTemplate :=
  { bytes := [0, 0, 0, 0]
    params := [{ name := "UEID", offset := 0, len := 2 },
               { name := "PUBLIC_KEY", offset := 0, len := 1 },
               { name := "SUBJECT_SN", offset := 2, len := 2 }] }

/-- C5 counterexample: `tbs_template` does return templates violating
the claim — an empty declared UEID yields a zero-length param, and
zero-valued needles can resolve to overlapping ranges, because a later
needle may match inside an earlier, already-zeroed range. -/
theorem C5_counterexample :
    tbs_template c5aBackend (CsrTemplateBuilder.new.add_ueid_ext []) "A" =
      some c5aTemplate ∧
    { name := "UEID", offset := 0, len := 0 } ∈ c5aTemplate.params ∧
    tbs_template c5bBackend (CsrTemplateBuilder.new.add_ueid_ext [0, 0]) "B" =
      some c5bTemplate ∧
    ¬ List.Pairwise rangesDisjoint c5bTemplate.params ∧
    ¬ c5ClaimStatement := by
  refine ⟨by decide, by decide, by decide, ?_, ?_⟩
  · intro hp
    simp only [c5bTemplate] at hp
    have hd := (List.pairwise_cons.mp hp).1
      { name := "PUBLIC_KEY", offset := 0, len := 1 } (by simp)
    exact hd 0 (by decide) (by decide)
  · intro hclaim
    have h1 := (hclaim c5aBackend (CsrTemplateBuilder.new.add_ueid_ext []) "A"
      c5aTemplate (by decide)).1
    have h2 := (h1 { name := "UEID", offset := 0, len := 0 } (by decide)).1
    exact absurd h2 (by decide)

theorem upperHexBytes_ne_nil {l : List Nat} (h : l ≠ []) : upperHexBytes l ≠ [] := by
  cases l with
  | nil => exact absurd rfl h
  | cons b t => simp [upperHexBytes]

/-- C5 amended: provided every declared needle is nonempty (the UEID
bytes, the encoded public key and the digest) and no declared needle
contains the zero sentinel byte, every param of a returned template has
positive length, lies inside the buffer, and the ranges are pairwise
disjoint. -/
theorem C5_amended_param_invariants (E : Backend) (b : CsrTemplateBuilder) (cn : String)
    (T : TbsTemplate) (hb : WellFormed b)
    (hne : ∀ cp ∈ b.params, cp.needle ≠ [])
    (hnz : ∀ cp ∈ b.params, (0 : Nat) ∉ cp.needle)
    (hpk_ne : E.pk_bytes ≠ [])
    (hpk_nz : (0 : Nat) ∉ E.pk_bytes)
    (hsha_ne : E.sha256 E.pk_bytes ≠ [])
    (h : tbs_template E b cn = some T) :
    (∀ p ∈ T.params, 0 < p.len ∧ p.offset + p.len ≤ T.bytes.length) ∧
    List.Pairwise rangesDisjoint T.params := by
  have hr := tbs_template_some h
  have hsn_ne : (snParam (keyHash E.sha256 E.pk_bytes)).needle ≠ [] := by
    show strBytes (keyHash E.sha256 E.pk_bytes) ≠ []
    rw [strBytes_keyHash]
    exact upperHexBytes_ne_nil hsha_ne
  have hsn_nz : (0 : Nat) ∉ (snParam (keyHash E.sha256 E.pk_bytes)).needle := by
    show (0 : Nat) ∉ strBytes (keyHash E.sha256 E.pk_bytes)
    rw [strBytes_keyHash]
    exact upperHexBytes_not_zero _
  have hgoodA : ∀ cp ∈ pendingOf E b,
      cp.tbs_param.len = cp.needle.length ∧ cp.needle ≠ [] := by
    intro cp hcp
    refine ⟨pendingOf_good hb cp hcp, ?_⟩
    simp only [pendingOf, pendingParams, List.append_assoc, List.mem_append,
      List.mem_singleton] at hcp
    rcases hcp with hcp | rfl | rfl
    · exact hne cp hcp
    · exact hpk_ne
    · exact hsn_ne
  have hgoodB : ∀ cp ∈ pendingOf E b,
      cp.tbs_param.len = cp.needle.length ∧ (0 : Nat) ∉ cp.needle := by
    intro cp hcp
    refine ⟨pendingOf_good hb cp hcp, ?_⟩
    simp only [pendingOf, pendingParams, List.append_assoc, List.mem_append,
      List.mem_singleton] at hcp
    rcases hcp with hcp | rfl | rfl
    · exact hnz cp hcp
    · exact hpk_nz
    · exact hsn_nz
  constructor
  · intro p hp
    refine ⟨resolveAll_len_pos hr hgoodA p hp, ?_⟩
    have h1 := (resolveAll_ranges hr (pendingOf_good hb) p hp).1
    have h2 := resolveAll_bytes_length hr
    omega
  · exact resolveAll_pairwise hr hgoodB

/-- C5 witness backend. -/
def c5wBackend : Backend :=
  { pk_bytes := [2]
    sha256 := fun _ => [4]
    encode := fun _ => []
    getTbs := fun _ => [1, 2, 48, 52] }

/-- The template produced in the C5 witness run. -/
def c5wTemplate : TbsTemplate :=
  { bytes := [0, 0, 0, 0]
    params := [{ name := "UEID", offset := 0, len := 1 },
               { name := "PUBLIC_KEY", offset := 1, len := 1 },
               { name := "SUBJECT_SN", offset := 2, len := 2 }] }

theorem C5_witness :
    WellFormed (CsrTemplateBuilder.new.add_ueid_ext [1]) ∧
    (∀ cp ∈ (CsrTemplateBuilder.new.add_ueid_ext [1]).params, cp.needle ≠ []) ∧
    (∀ cp ∈ (CsrTemplateBuilder.new.add_ueid_ext [1]).params, (0 : Nat) ∉ cp.needle) ∧
    c5wBackend.pk_bytes ≠ [] ∧
    (0 : Nat) ∉ c5wBackend.pk_bytes ∧
    c5wBackend.sha256 c5wBackend.pk_bytes ≠ [] ∧
    tbs_template c5wBackend (CsrTemplateBuilder.new.add_ueid_ext [1]) "X" =
      some c5wTemplate ∧
    ((∀ p ∈ c5wTemplate.params, 0 < p.len ∧ p.offset + p.len ≤ c5wTemplate.bytes.length) ∧
      List.Pairwise rangesDisjoint c5wTemplate.params) :=
  ⟨by decide, by decide, by decide, by decide, by decide, by decide, by decide,
    C5_amended_param_invariants c5wBackend (CsrTemplateBuilder.new.add_ueid_ext [1]) "X"
      c5wTemplate (by decide) (by decide) (by decide) (by decide) (by decide) (by decide)
      (by decide)⟩

end CsrRustcrypto

namespace CsrRustcrypto

theorem pendingOf_map_tbs_param_eq {E1 E2 : Backend} (b : CsrTemplateBuilder)
    (hpk : E1.pk_bytes.length = E2.pk_bytes.length)
    (hsha : (E1.sha256 E1.pk_bytes).length = (E2.sha256 E2.pk_bytes).length) :
    (pendingOf E1 b).map (fun cp => cp.tbs_param) =
      (pendingOf E2 b).map (fun cp => cp.tbs_param) := by
  simp only [pendingOf, pendingParams, List.map_append, List.map_cons, List.map_nil,
    pkParam, snParam]
  rw [hpk, strBytes_keyHash_length, strBytes_keyHash_length, hsha]

/-- The template a run produces when its needles resolve at the offsets
`os` (the explicit form of the `resolveAll` result). -/
def templateOf (E : Backend) (b : CsrTemplateBuilder) (cn : String) (os : List Nat) :
    TbsTemplate :=
  { bytes := multiZero (tbsBytesOf E b cn)
      (os.zip ((pendingOf E b).map (fun cp => cp.tbs_param.len)))
    params := List.zipWith (fun cp o => { cp.tbs_param with offset := o })
      (pendingOf E b) os }

/-- C9: two independent `tbs_template` runs with the identical builder
configuration and subject string yield templates with identical param
lists (same names, offsets and lengths) and byte buffers of identical
length, even though the embedded key and digest bytes differ — provided
the two encoded outputs are structurally aligned: same to-be-signed
length and, at each resolution step, the run's needle first occurs at
the same offset in the correspondingly sanitized buffer. -/
theorem C9_structural_determinism (ueid : Option (List Nat)) (bc : Option (Bool × Nat))
    (ku : Option Nat) (cn : String) (E1 E2 : Backend) (os : List Nat)
    (hpk : E1.pk_bytes.length = E2.pk_bytes.length)
    (hsha : (E1.sha256 E1.pk_bytes).length = (E2.sha256 E2.pk_bytes).length)
    (hbuf : (tbsBytesOf E1 (builderOf ueid bc ku) cn).length =
      (tbsBytesOf E2 (builderOf ueid bc ku) cn).length)
    (hos : os.length = (pendingOf E1 (builderOf ueid bc ku)).length)
    (hloc1 : ∀ k, k < (pendingOf E1 (builderOf ueid bc ku)).length →
      locate ((pendingOf E1 (builderOf ueid bc ku)).getD k default).needle
        (multiZero (tbsBytesOf E1 (builderOf ueid bc ku) cn)
          ((os.take k).zip
            (((pendingOf E1 (builderOf ueid bc ku)).map
              (fun cp => cp.tbs_param.len)).take k)))
        = some (os.getD k 0))
    (hloc2 : ∀ k, k < (pendingOf E2 (builderOf ueid bc ku)).length →
      locate ((pendingOf E2 (builderOf ueid bc ku)).getD k default).needle
        (multiZero (tbsBytesOf E2 (builderOf ueid bc ku) cn)
          ((os.take k).zip
            (((pendingOf E2 (builderOf ueid bc ku)).map
              (fun cp => cp.tbs_param.len)).take k)))
        = some (os.getD k 0)) :
    ∃ T1 T2,
      tbs_template E1 (builderOf ueid bc ku) cn = some T1 ∧
      tbs_template E2 (builderOf ueid bc ku) cn = some T2 ∧
      T1.params = T2.params ∧
      T1.bytes.length = T2.bytes.length := by
  have htp := pendingOf_map_tbs_param_eq (builderOf ueid bc ku) hpk hsha
  have hplen : (pendingOf E1 (builderOf ueid bc ku)).length =
      (pendingOf E2 (builderOf ueid bc ku)).length := by
    rw [pendingOf_length, pendingOf_length]
  have hos2 : os.length = (pendingOf E2 (builderOf ueid bc ku)).length := by
    rw [← hplen]
    exact hos
  have hr1 := resolveAll_of_located (pendingOf E1 (builderOf ueid bc ku))
    (tbsBytesOf E1 (builderOf ueid bc ku) cn) os hos hloc1
  have hr2 := resolveAll_of_located (pendingOf E2 (builderOf ueid bc ku))
    (tbsBytesOf E2 (builderOf ueid bc ku) cn) os hos2 hloc2
  have e1 : ∀ (l : List CsrTemplateParam),
      List.zipWith (fun cp o => { cp.tbs_param with offset := o }) l os =
        List.zipWith (fun tp o => { tp with offset := o })
          (l.map (fun cp => cp.tbs_param)) os :=
    fun l => (List.zipWith_map_left l os (fun cp => cp.tbs_param)
      (fun tp o => { tp with offset := o })).symm
  refine ⟨templateOf E1 (builderOf ueid bc ku) cn os,
    templateOf E2 (builderOf ueid bc ku) cn os, ?_, ?_, ?_, ?_⟩
  · rw [tbs_template_def, hr1]
    rfl
  · rw [tbs_template_def, hr2]
    rfl
  · simp only [templateOf]
    rw [e1, e1, htp]
  · simp only [templateOf]
    rw [multiZero_length, multiZero_length, hbuf]

end CsrRustcrypto

namespace CsrRustcrypto

/-- C9 witness backends: same configuration, different key and digest
bytes, structurally aligned encoded outputs. -/
def c9aBackend : Backend :=
  { pk_bytes := [2]
    sha256 := fun _ => [4]
    encode := fun _ => []
    getTbs := fun _ => [1, 1, 2, 48, 52] }

def c9bBackend : Backend :=
  { pk_bytes := [3]
    sha256 := fun _ => [5]
    encode := fun _ => []
    getTbs := fun _ => [1, 1, 3, 48, 53] }

theorem C9_witness :
    c9aBackend.pk_bytes.length = c9bBackend.pk_bytes.length ∧
    (c9aBackend.sha256 c9aBackend.pk_bytes).length =
      (c9bBackend.sha256 c9bBackend.pk_bytes).length ∧
    (tbsBytesOf c9aBackend (builderOf (some [1, 1]) none none) "X").length =
      (tbsBytesOf c9bBackend (builderOf (some [1, 1]) none none) "X").length ∧
    [0, 2, 3].length = (pendingOf c9aBackend (builderOf (some [1, 1]) none none)).length ∧
    (∀ k, k < (pendingOf c9aBackend (builderOf (some [1, 1]) none none)).length →
      locate ((pendingOf c9aBackend (builderOf (some [1, 1]) none none)).getD k default).needle
        (multiZero (tbsBytesOf c9aBackend (builderOf (some [1, 1]) none none) "X")
          (([0, 2, 3].take k).zip
            (((pendingOf c9aBackend (builderOf (some [1, 1]) none none)).map
              (fun cp => cp.tbs_param.len)).take k)))
        = some ([0, 2, 3].getD k 0)) ∧
    (∀ k, k < (pendingOf c9bBackend (builderOf (some [1, 1]) none none)).length →
      locate ((pendingOf c9bBackend (builderOf (some [1, 1]) none none)).getD k default).needle
        (multiZero (tbsBytesOf c9bBackend (builderOf (some [1, 1]) none none) "X")
          (([0, 2, 3].take k).zip
            (((pendingOf c9bBackend (builderOf (some [1, 1]) none none)).map
              (fun cp => cp.tbs_param.len)).take k)))
        = some ([0, 2, 3].getD k 0)) ∧
    (∃ T1 T2,
      tbs_template c9aBackend (builderOf (some [1, 1]) none none) "X" = some T1 ∧
      tbs_template c9bBackend (builderOf (some [1, 1]) none none) "X" = some T2 ∧
      T1.params = T2.params ∧
      T1.bytes.length = T2.bytes.length) :=
  ⟨by decide, by decide, by decide, by decide, by decide, by decide,
    C9_structural_determinism (some [1, 1]) none none "X" c9aBackend c9bBackend
      [0, 2, 3] (by decide) (by decide) (by decide) (by decide) (by decide) (by decide)⟩

end CsrRustcrypto
